import Mathlib

/-!
Verification of the response-normalization and staged-pipeline contract of the
call-planning / call-summary repository (`planner.py`, `summary.py`).

Strings are modelled as `List Char`.  The external Completion Service is an
explicit parameter `svc : List Char → List Char` (rendered prompt ↦ raw
response).  `json.loads` is modelled by an executable strict JSON parser
(`json_loads`); outer whitespace handling is folded into a Python-style strip.
-/

namespace CallPlanner

/-- ASCII whitespace recognised by the `\s` regex class and by `str.strip`
in the source (modelled on the ASCII subset of Unicode whitespace). -/
def isWs (c : Char) : Bool :=
  c == ' ' || c == '\t' || c == '\n' || c == '\r' || c == '\x0b' || c == '\x0c'

/-- Model of `response_str.replace("```", "")`: left-to-right, non-overlapping
removal of every occurrence of three consecutive backticks. -/
def removeFences : List Char → List Char
  | [] => []
  | '`' :: '`' :: '`' :: rest => removeFences rest
  | c :: rest => c :: removeFences rest

/-- Whether `l` contains three consecutive backticks (a fence marker). -/
def hasTriple (l : List Char) : Bool :=
  match l with
  | [] => false
  | c :: rest => decide (c = '`' ∧ rest.take 2 = ['`', '`']) || hasTriple rest

/-- Remove trailing whitespace (the right half of `str.strip`). -/
def dropWsEnd (l : List Char) : List Char :=
  match l with
  | [] => []
  | c :: rest =>
    let r := dropWsEnd rest
    if r = [] ∧ isWs c = true then [] else c :: r

/-- Python `str.strip()`. -/
def pyStrip (l : List Char) : List Char :=
  dropWsEnd (l.dropWhile isWs)

/-- Does the text begin with a case-insensitive `json` token (the literal
part of the `^\s*json\s*` pattern)? -/
def matchesJsonTok (l : List Char) : Bool :=
  match l with
  | c1 :: c2 :: c3 :: c4 :: _ =>
    (c1 == 'j' || c1 == 'J') && (c2 == 's' || c2 == 'S') &&
    (c3 == 'o' || c3 == 'O') && (c4 == 'n' || c4 == 'N')
  | _ => false

/-- Model of the `re.sub` call with pattern `^\s*json\s*` and
`flags=re.IGNORECASE`: the pattern is
anchored at the start of the string, so at most one (greedy) substitution
happens; when the literal `json` is absent the string is left unchanged. -/
def subJsonTok (l : List Char) : List Char :=
  let r := l.dropWhile isWs
  if matchesJsonTok r then (r.drop 4).dropWhile isWs else l

/-- The function `clean_json_output` from `planner.py` / `summary.py`:
remove backtick fences, strip one leading `json` token, strip whitespace. -/
def clean_json_output (l : List Char) : List Char :=
  pyStrip (subJsonTok (removeFences l))

example : clean_json_output "```json\n \x7b\"a\": 1\x7d \n```".toList
    = "\x7b\"a\": 1\x7d".toList := by decide

/-! ### JSON values and a strict parser modelling `json.loads` -/

/-- Parse trees produced by `json.loads`.  Numbers keep their source lexeme
(the repository never computes with numbers). -/
inductive Json where
  | null : Json
  | bool : Bool → Json
  | num : List Char → Json
  | str : List Char → Json
  | arr : List Json → Json
  | obj : List (List Char × Json) → Json

/-- JSON inter-token whitespace (`[ \t\n\r]`, as in the Python scanner). -/
def jsonWs (c : Char) : Bool :=
  c == ' ' || c == '\t' || c == '\n' || c == '\r'

def skipWs (l : List Char) : List Char := l.dropWhile jsonWs

def hexVal (c : Char) : Option Nat :=
  if '0' ≤ c ∧ c ≤ '9' then some (c.toNat - '0'.toNat)
  else if 'a' ≤ c ∧ c ≤ 'f' then some (c.toNat - 'a'.toNat + 10)
  else if 'A' ≤ c ∧ c ≤ 'F' then some (c.toNat - 'A'.toNat + 10)
  else none

/-- Single-character string escapes accepted after a backslash. -/
def escOf (e : Char) : Option Char :=
  if e = '"' then some '"' else if e = '\\' then some '\\'
  else if e = '/' then some '/' else if e = 'b' then some '\x08'
  else if e = 'f' then some '\x0c' else if e = 'n' then some '\n'
  else if e = 'r' then some '\r' else if e = 't' then some '\t' else none

/-- Body of a JSON string after the opening quote; returns the decoded
content and the remainder after the closing quote. -/
def parseStringBody : Nat → List Char → Option (List Char × List Char)
  | 0, _ => none
  | _, [] => none
  | fuel + 1, c :: r =>
    if c = '"' then some ([], r)
    else if c = '\\' then
      match r with
      | 'u' :: h1 :: h2 :: h3 :: h4 :: r3 =>
        match hexVal h1, hexVal h2, hexVal h3, hexVal h4 with
        | some a, some b, some c2, some d =>
          (parseStringBody fuel r3).map
            (fun p => (Char.ofNat (((a * 16 + b) * 16 + c2) * 16 + d) :: p.1, p.2))
        | _, _, _, _ => none
      | e :: r2 =>
        (escOf e).bind (fun ch => (parseStringBody fuel r2).map (fun p => (ch :: p.1, p.2)))
      | [] => none
    else if c.toNat < 32 then none
    else (parseStringBody fuel r).map (fun p => (c :: p.1, p.2))

/-- Integer part of a number literal: `0` or a nonzero digit run. -/
def parseIntPart : List Char → Option (List Char × List Char)
  | [] => none
  | c :: r =>
    if c = '0' then some (['0'], r)
    else if c.isDigit then some (c :: r.takeWhile Char.isDigit, r.dropWhile Char.isDigit)
    else none

/-- Optional fraction part (`(\.\d+)?`). -/
def parseFrac (l : List Char) : List Char × List Char :=
  match l with
  | '.' :: r =>
    if (r.takeWhile Char.isDigit) = [] then ([], l)
    else ('.' :: r.takeWhile Char.isDigit, r.dropWhile Char.isDigit)
  | _ => ([], l)

/-- Optional exponent part (`([eE][-+]?\d+)?`). -/
def parseExp (l : List Char) : List Char × List Char :=
  match l with
  | e :: rest =>
    if e = 'e' ∨ e = 'E' then
      match rest with
      | s :: r2 =>
        if s = '+' ∨ s = '-' then
          if (r2.takeWhile Char.isDigit) = [] then ([], l)
          else (e :: s :: r2.takeWhile Char.isDigit, r2.dropWhile Char.isDigit)
        else
          if (rest.takeWhile Char.isDigit) = [] then ([], l)
          else (e :: rest.takeWhile Char.isDigit, rest.dropWhile Char.isDigit)
      | [] => ([], l)
    else ([], l)
  | [] => ([], l)

/-- A numeric literal (also `-Infinity`, accepted by `json.loads`). -/
def parseNumber (l : List Char) : Option (List Char × List Char) :=
  match l with
  | '-' :: 'I' :: 'n' :: 'f' :: 'i' :: 'n' :: 'i' :: 't' :: 'y' :: r =>
    some ("-Infinity".toList, r)
  | _ =>
    let (sign, l1) :=
      match l with
      | '-' :: r => ((['-'] : List Char), r)
      | _ => (([] : List Char), l)
    match parseIntPart l1 with
    | none => none
    | some (ip, r1) =>
      let (fp, r2) := parseFrac r1
      let (ep, r3) := parseExp r2
      some (sign ++ ip ++ fp ++ ep, r3)

mutual

/-- A JSON value (leading whitespace allowed), returning the remainder;
dispatch is on the first non-whitespace character, as in the Python scanner. -/
def parseVal : Nat → List Char → Option (Json × List Char)
  | 0, _ => none
  | fuel + 1, l =>
    match skipWs l with
    | [] => none
    | c :: r =>
      if c = '\x7b' then
        match skipWs r with
        | '\x7d' :: r2 => some (Json.obj [], r2)
        | _ => (parseMembers fuel r).map (fun p => (Json.obj p.1, p.2))
      else if c = '[' then
        match skipWs r with
        | ']' :: r2 => some (Json.arr [], r2)
        | _ => (parseElems fuel r).map (fun p => (Json.arr p.1, p.2))
      else if c = '"' then
        (parseStringBody (fuel + 1) r).map (fun p => (Json.str p.1, p.2))
      else if c = 't' then
        match r with
        | 'r' :: 'u' :: 'e' :: r2 => some (Json.bool true, r2)
        | _ => none
      else if c = 'f' then
        match r with
        | 'a' :: 'l' :: 's' :: 'e' :: r2 => some (Json.bool false, r2)
        | _ => none
      else if c = 'n' then
        match r with
        | 'u' :: 'l' :: 'l' :: r2 => some (Json.null, r2)
        | _ => none
      else if c = 'N' then
        match r with
        | 'a' :: 'N' :: r2 => some (Json.num ("NaN".toList), r2)
        | _ => none
      else if c = 'I' then
        match r with
        | 'n' :: 'f' :: 'i' :: 'n' :: 'i' :: 't' :: 'y' :: r2 =>
          some (Json.num ("Infinity".toList), r2)
        | _ => none
      else (parseNumber (c :: r)).map (fun p => (Json.num p.1, p.2))

/-- Comma-separated array elements, ending at `]`. -/
def parseElems : Nat → List Char → Option (List Json × List Char)
  | 0, _ => none
  | fuel + 1, l =>
    (parseVal fuel l).bind (fun p =>
      match skipWs p.2 with
      | ',' :: r2 => (parseElems fuel r2).map (fun q => (p.1 :: q.1, q.2))
      | ']' :: r2 => some ([p.1], r2)
      | _ => none)

/-- Comma-separated object members, ending at the closing brace. -/
def parseMembers : Nat → List Char → Option (List (List Char × Json) × List Char)
  | 0, _ => none
  | fuel + 1, l =>
    match skipWs l with
    | '"' :: r =>
      (parseStringBody (fuel + 1) r).bind (fun pk =>
        match skipWs pk.2 with
        | ':' :: r2 =>
          (parseVal fuel r2).bind (fun pv =>
            match skipWs pv.2 with
            | ',' :: r4 => (parseMembers fuel r4).map (fun q => ((pk.1, pv.1) :: q.1, q.2))
            | '\x7d' :: r4 => some ([(pk.1, pv.1)], r4)
            | _ => none)
        | _ => none)
    | _ => none

end

/-- Model of `json.loads`: strip outer whitespace, parse one value, and
require that nothing but whitespace follows it. -/
def json_loads (l : List Char) : Option Json :=
  match parseVal (2 * (pyStrip l).length + 2) (pyStrip l) with
  | some (v, rest) => if skipWs rest = [] then some v else none
  | none => none

example : json_loads " \x7b \"a\" : [true, null, \"x\\n\"] \x7d ".toList
    = some (Json.obj [("a".toList, Json.arr
        [Json.bool true, Json.null, Json.str ['x', '\n']])]) := by rfl

example : json_loads "oops".toList = none := by rfl

example : json_loads "[]".toList = some (Json.arr []) := by rfl

example : json_loads "\x7b\x7d".toList = some (Json.obj []) := by rfl

example : json_loads "-12.5e+3".toList = some (Json.num "-12.5e+3".toList) := by rfl

example : json_loads "[1,]".toList = none := by rfl

example : json_loads "\"ok\" 1".toList = none := by rfl

example : clean_json_output "jsonjson".toList = "json".toList := by decide

example : clean_json_output "json".toList = [] := by decide

example : clean_json_output "  hello `` there  ".toList
    = "hello `` there".toList := by decide

/-! ### Serialization (model of `json.dumps` with `ensure_ascii=False`) -/

def hexDigit (n : Nat) : Char :=
  if n < 10 then Char.ofNat ('0'.toNat + n) else Char.ofNat ('a'.toNat + n - 10)

/-- Escaping of one character inside a serialized JSON string. -/
def escJChar (c : Char) : List Char :=
  if c = '"' then ['\\', '"'] else if c = '\\' then ['\\', '\\']
  else if c = '\n' then ['\\', 'n'] else if c = '\t' then ['\\', 't']
  else if c = '\r' then ['\\', 'r'] else if c = '\x08' then ['\\', 'b']
  else if c = '\x0c' then ['\\', 'f']
  else if c.toNat < 32 then
    ['\\', 'u', '0', '0', hexDigit (c.toNat / 16), hexDigit (c.toNat % 16)]
  else [c]

/-- Serialized JSON string with surrounding quotes. -/
def escJString (s : List Char) : List Char :=
  '"' :: s.foldr (fun c acc => escJChar c ++ acc) ['"']

mutual

/-- Compact `json.dumps(v, ensure_ascii=False)` (default separators). -/
def dumpsC : Json → List Char
  | Json.null => "null".toList
  | Json.bool true => "true".toList
  | Json.bool false => "false".toList
  | Json.num lex => lex
  | Json.str s => escJString s
  | Json.arr [] => "[]".toList
  | Json.arr (x :: xs) => '[' :: (dumpsC x ++ dumpsCArr xs)
  | Json.obj [] => "\x7b\x7d".toList
  | Json.obj ((k, v) :: kvs) =>
    '\x7b' :: (escJString k ++ ": ".toList ++ dumpsC v ++ dumpsCObj kvs)

def dumpsCArr : List Json → List Char
  | [] => [']']
  | x :: xs => ", ".toList ++ dumpsC x ++ dumpsCArr xs

def dumpsCObj : List (List Char × Json) → List Char
  | [] => ['\x7d']
  | (k, v) :: kvs =>
    ", ".toList ++ escJString k ++ ": ".toList ++ dumpsC v ++ dumpsCObj kvs

end

def spacesN (n : Nat) : List Char := List.replicate n ' '

mutual

/-- Pretty `json.dumps(v, ensure_ascii=False, indent=2)`; the first argument
is the current indentation level. -/
def dumpsI : Nat → Json → List Char
  | _, Json.null => "null".toList
  | _, Json.bool true => "true".toList
  | _, Json.bool false => "false".toList
  | _, Json.num lex => lex
  | _, Json.str s => escJString s
  | _, Json.arr [] => "[]".toList
  | lvl, Json.arr (x :: xs) =>
    '[' :: '\n' :: (spacesN (lvl + 2) ++ dumpsI (lvl + 2) x ++ dumpsIArr (lvl + 2) xs
      ++ '\n' :: (spacesN lvl ++ [']']))
  | _, Json.obj [] => "\x7b\x7d".toList
  | lvl, Json.obj ((k, v) :: kvs) =>
    '\x7b' :: '\n' :: (spacesN (lvl + 2) ++ escJString k ++ ": ".toList
      ++ dumpsI (lvl + 2) v ++ dumpsIObj (lvl + 2) kvs
      ++ '\n' :: (spacesN lvl ++ ['\x7d']))

def dumpsIArr : Nat → List Json → List Char
  | _, [] => []
  | lvl, x :: xs => ',' :: '\n' :: (spacesN lvl ++ dumpsI lvl x ++ dumpsIArr lvl xs)

def dumpsIObj : Nat → List (List Char × Json) → List Char
  | _, [] => []
  | lvl, (k, v) :: kvs =>
    ',' :: '\n' :: (spacesN lvl ++ escJString k ++ ": ".toList
      ++ dumpsI lvl v ++ dumpsIObj lvl kvs)

end

/-! ### Rendered prompt templates (f-string formatting of the source
`PromptTemplate`s; `\x7b`/`\x7d` denote literal braces, `\x27` apostrophes) -/

/-- Rendered `intent_prompt` from `generate_intent`. -/
def intentPrompt (user_input : List Char) : List Char :=
  ("\nBased on the following user input, generate a JSON object representing the call intent. The JSON should include the following keys:\n"
    ++ "- \"Caller(You)\" : The role of the caller.\n"
    ++ "- \"recipient(Opponent)\" : The role of the recipient.\n"
    ++ "- \"purpose\" : The purpose of the call.\n"
    ++ "- \"context\" : Additional context for the call.\n\nUser input: ").toList
  ++ user_input
  ++ "\n\nGenerate the JSON object without any extra explanation.\n        ".toList

/-- Rendered `planning_prompt` from `generate_call_plan`. -/
def planPrompt (intent_str : List Char) : List Char :=
  "\nYou are an expert call planning agent. Using a reactive approach and chain-of-thought reasoning, analyze the following call intent and generate a detailed JSON plan that outlines possible situations and corresponding actions, along with your reasoning.\n\nCall intent: ".toList
  ++ intent_str
  ++ ("\n\nRequirements:\n"
    ++ "1. Under the key \"scenarios\", list multiple possible scenarios that might occur during the call (especially scenarios triggered by the opponent\x27s messages).\n"
    ++ "2. Each scenario must include:\n"
    ++ "   - \"name\": A brief name for the scenario.\n"
    ++ "   - \"description\": A short description of the situation.\n"
    ++ "   - \"chainOfThought\": A detailed explanation of your reasoning for this scenario, including:\n"
    ++ "         a. What subsequent situations or responses the opponent might say/do based on your actions.\n"
    ++ "         b. What actions (or responses) you can logically take.\n"
    ++ "   - \"possibleActions\": A list of possible actions. Each action must be an object with:\n"
    ++ "         \x7b \"action\": \"Description of what the caller (You) might say/do in response to the opponent\x27s message\", \"next\": \"Name of the next scenario or \x27END\x27\" \x7d\n"
    ++ "3. The plan should be reactive and capture follow-up steps based on the evolution of the conversation.\n"
    ++ "4. Make the next step \"END\" when your purpose is achieved.\n"
    ++ "5. Do not make any judgments (such as making new appointment, or canceling reservation, changing appointment, alternative plan, etc.), If then, next action will be like \"I will check and call you back later\" and end the conversation.\n"
    ++ "6. Output only the JSON without any extra text or explanation.\n\nPlease generate the JSON plan.\n        ").toList

/-- Rendered `refine_prompt` from one `iterative_refinement` pass. -/
def refinePrompt (plan_json : List Char) (intent_str : List Char) : List Char :=
  "\nHere is the current call planning information and user intent:\n".toList
  ++ plan_json
  ++ "\nUser intent: ".toList
  ++ intent_str
  ++ ("\n\nRefine and elaborate this plan to be more detailed and actionable using chain-of-thought reasoning.\n"
    ++ "For each scenario, expand the \"chainOfThought\" to include:\n"
    ++ "- Decide to contain situation or remove it logically. (Remove unnecessary situation)\n"
    ++ "- Potential follow-up scenarios to add based on each action that undefined in plan.\n"
    ++ "- Do not make any judgments (such as making new appointment, or canceling reservation, changing appointment, alternative plan, etc.), If then, next action will be like \"I will check and call you back later\" and end the conversation.\n"
    ++ "Ensure that the refined plan maintains the same JSON structure.\n"
    ++ "Return the refined planning as JSON without any extra text.\n            ").toList

/-- Rendered `system_prompt` template from `create_cot_system_prompt_from_plan`. -/
def cotPrompt (plan_json : List Char) (intent_str : List Char) : List Char :=
  "\nYou are an AI tasked with creating a system prompt for another conversation AI agent. The call plan below contains the user\x27s intent and detailed scenarios for handling the call:\n".toList
  ++ plan_json
  ++ "\n\nUser intent: ".toList
  ++ intent_str
  ++ ("\n\nFollow the instructions below:\n"
    ++ "1. Create a system prompt that clearly explains the situation, the role of the conversation AI agent (the caller), the opponent (e.g., restaurant staff), and the purpose of the conversation.\n"
    ++ "2. Summarize the plan and provide clear instructions to the conversation AI agent on how to react to the opponent\x27s messages.\n"
    ++ "3. Specify the end condition of the conversation. (This occurs either when you achieve your purpose or when a decision point is reached that is not specified in the intent.)\n"
    ++ "4. Do not make any judgments (such as making new appointment, or canceling reservation, changing appointment, alternative plan, etc.), If then, next action will be like \"I will check and call you back later\" and end the conversation.\n"
    ++ "5. Provide the first message that the conversation AI agent should say when the conversation starts. A simple greeting is enough.\n\n"
    ++ "Make final system prompt. Use the plan and these instructions to guide the conversation effectively.\n\n"
    ++ "Output format should be json format:\n"
    ++ "```json \x7b\n    \"system_prompt\": \"System prompt\",\n    \"first_message\": \"First message\"\n    \x7d\n```\n\n\n        ").toList

/-- Rendered `summary_prompt` from `summarize_call_log`. -/
def summaryPrompt (call_log : List Char) : List Char :=
  ("\nBased on the following call record, generate a JSON summary with the following keys:\n"
    ++ "1. \"recipient\": the party that received the call.\n"
    ++ "2. \"purpose\": the purpose of the call.\n"
    ++ "3. \"result\": indicate \"success\" if the purpose was achieved, or \"failure\" otherwise.\n"
    ++ "4. \"failureReason\": if the call failed, describe the reason extracted from the call record (otherwise, leave empty or null).\n"
    ++ "5. \"nextSteps\": what the user should do next (for example, call back or make a decision).\n"
    ++ "6. \"additionalDetails\": any additional information the user should be aware of.\n\nCall record: ").toList
  ++ call_log
  ++ "\n\nOutput only the JSON summary without any extra text or explanation.\n        ".toList

/-! ### Stages of the two pipelines -/

/-- Failure raised by a stage when the normalized response is not JSON
(the `ValueError` naming the stage; the printed offending text is carried
as the second component). -/
inductive PipeError where
  | decodeError : List Char → List Char → PipeError

/-- Decoding step shared by all JSON stages: `json.loads` inside
`try/except`, raising an error naming the stage on failure. -/
def decode (stage : List Char) (text : List Char) : Except PipeError Json :=
  match json_loads text with
  | some v => Except.ok v
  | none => Except.error (PipeError.decodeError stage text)

def giTag : List Char := "generate_intent".toList
def gcpTag : List Char := "generate_call_plan".toList
def irTag : List Char := "iterative_refinement".toList
def cotTag : List Char := "create_cot_system_prompt_from_plan".toList
def sumTag : List Char := "summarize_call_log".toList

/-- Stage name attached to a refinement decode failure (the source appends
the 1-based iteration number). -/
def irStage (idx : Nat) : List Char :=
  "iterative_refinement, iteration ".toList ++ (Nat.repr idx).toList

/-- Stage 0 of `planner.py`: one Completion Service call, normalize, decode.
Second component: the stage tags of the service calls issued. -/
def generate_intent (svc : List Char → List Char) (user_input : List Char) :
    Except PipeError Json × List (List Char) :=
  (decode giTag (clean_json_output (svc (intentPrompt user_input))), [giTag])

/-- Stage 1 of `planner.py`. -/
def generate_call_plan (svc : List Char → List Char) (intent : Json) :
    Except PipeError Json × List (List Char) :=
  (decode gcpTag (clean_json_output (svc (planPrompt (dumpsC intent)))), [gcpTag])

/-- Loop body of `iterative_refinement`: `idx` is the 1-based iteration
counter used in the failure message, the third argument the remaining
iteration count; each decoded plan replaces the previous one. -/
def irAux (svc : List Char → List Char) (intent : Json) :
    Json → Nat → Nat → Except PipeError Json × List (List Char)
  | plan, _, 0 => (Except.ok plan, [])
  | plan, idx, n + 1 =>
    match json_loads (clean_json_output
        (svc (refinePrompt (dumpsI 0 plan) (dumpsC intent)))) with
    | some p2 =>
      ((irAux svc intent p2 (idx + 1) n).1, irTag :: (irAux svc intent p2 (idx + 1) n).2)
    | none =>
      (Except.error (PipeError.decodeError (irStage idx)
        (clean_json_output (svc (refinePrompt (dumpsI 0 plan) (dumpsC intent))))), [irTag])

/-- Stage 2 of `planner.py`: `iterations` is a Python `int`; `range`
executes `max 0 iterations` passes. -/
def iterative_refinement (svc : List Char → List Char) (plan intent : Json)
    (iterations : Int) : Except PipeError Json × List (List Char) :=
  irAux svc intent plan 1 iterations.toNat

/-- Stage 3 of `planner.py`: the normalized response is returned as a string
without any decoding. -/
def create_cot_system_prompt_from_plan (svc : List Char → List Char)
    (plan intent : Json) : List Char × List (List Char) :=
  (clean_json_output (svc (cotPrompt (dumpsI 0 plan) (dumpsC intent))), [cotTag])

/-- The single stage of `summary.py`. -/
def summarize_call_log (svc : List Char → List Char) (call_log : List Char) :
    Except PipeError Json × List (List Char) :=
  (decode sumTag (clean_json_output (svc (summaryPrompt call_log))), [sumTag])

/-- The planning pipeline of `main` in `planner.py`, with the user input and
iteration count as parameters: each stage feeds the next, a decode failure
aborts the remainder of the run.  The second component lists the stage tags
of all Completion Service calls issued during the run. -/
def run_call_planning (svc : List Char → List Char) (user_input : List Char)
    (iterations : Int) : Except PipeError (List Char) × List (List Char) :=
  match generate_intent svc user_input with
  | (Except.error e, c1) => (Except.error e, c1)
  | (Except.ok intent, c1) =>
    match generate_call_plan svc intent with
    | (Except.error e, c2) => (Except.error e, c1 ++ c2)
    | (Except.ok plan0, c2) =>
      match iterative_refinement svc plan0 intent iterations with
      | (Except.error e, c3) => (Except.error e, c1 ++ c2 ++ c3)
      | (Except.ok plan, c3) =>
        match create_cot_system_prompt_from_plan svc plan intent with
        | (s, c4) => (Except.ok s, c1 ++ c2 ++ c3 ++ c4)

/-- The hardcoded demo input of `main` in `planner.py`. -/
def mainUserInput : List Char :=
  "Want to ask insurance company about my car insurance. when my insurance is expired, and I want to renew.".toList

/-- The function `main` of `planner.py` (refinement count 3). -/
def pipelineMain (svc : List Char → List Char) :
    Except PipeError (List Char) × List (List Char) :=
  run_call_planning svc mainUserInput 3

/-- Field lookup on a decoded JSON mapping. -/
def jget (v : Json) (key : List Char) : Option Json :=
  match v with
  | Json.obj kvs => kvs.lookup key
  | _ => none

/-! ### Lemmas about fence removal -/

theorem hasTriple_cons (c : Char) (r : List Char) :
    hasTriple (c :: r) = (decide (c = '`' ∧ r.take 2 = ['`', '`']) || hasTriple r) := rfl

theorem hasTriple_append_right {a b : List Char} (h : hasTriple (a ++ b) = false) :
    hasTriple b = false := by
  induction a with
  | nil => exact h
  | cons c a ih =>
    rw [List.cons_append, hasTriple_cons, Bool.or_eq_false_iff] at h
    exact ih h.2

theorem take_two_cons (a : Char) (x : List Char) : (a :: x).take 2 = a :: x.take 1 := rfl

theorem take_one_cons (a : Char) (x : List Char) : (a :: x).take 1 = [a] := rfl

theorem take_two_of_append {a b : List Char} (h : a.take 2 = ['`', '`']) :
    (a ++ b).take 2 = ['`', '`'] := by
  have h2 := congrArg List.length h
  rw [List.length_take] at h2
  simp only [List.length_cons, List.length_nil] at h2
  rw [List.take_append_eq_append_take, h, Nat.sub_eq_zero_of_le (by omega), List.take_zero,
    List.append_nil]

theorem hasTriple_append_left {a b : List Char} (h : hasTriple (a ++ b) = false) :
    hasTriple a = false := by
  induction a with
  | nil => rfl
  | cons c a ih =>
    rw [List.cons_append, hasTriple_cons, Bool.or_eq_false_iff] at h
    rw [hasTriple_cons, Bool.or_eq_false_iff]
    refine ⟨?_, ih h.2⟩
    rcases h with ⟨h1, _⟩
    simp only [decide_eq_false_iff_not] at h1 ⊢
    rintro ⟨hc, ht⟩
    exact h1 ⟨hc, take_two_of_append ht⟩

theorem hasTriple_dropWhile {p : Char → Bool} {l : List Char}
    (h : hasTriple l = false) : hasTriple (l.dropWhile p) = false := by
  have := List.takeWhile_append_dropWhile (p := p) (l := l)
  exact hasTriple_append_right (this ▸ h)

theorem hasTriple_drop {n : Nat} {l : List Char} (h : hasTriple l = false) :
    hasTriple (l.drop n) = false := by
  have := List.take_append_drop n l
  exact hasTriple_append_right (this ▸ h)

/-- Unfolding of `removeFences` whenever no fence starts at the head. -/
theorem rf_step (c : Char) (r : List Char) (h : ¬(c = '`' ∧ r.take 2 = ['`', '`'])) :
    removeFences (c :: r) = c :: removeFences r := by
  rw [removeFences.eq_def]
  split
  next heq => exact absurd heq (by simp)
  next rest2 heq =>
    exfalso
    injection heq with e1 e2
    subst e1
    subst e2
    exact h ⟨rfl, rfl⟩
  next c2 rest2 heq =>
    injection heq with e1 e2
    rw [← e1, ← e2]

theorem removeFences_id {l : List Char} (h : hasTriple l = false) :
    removeFences l = l := by
  induction l with
  | nil => rfl
  | cons c r ih =>
    rw [hasTriple_cons, Bool.or_eq_false_iff] at h
    rcases h with ⟨h1, h2⟩
    simp only [decide_eq_false_iff_not] at h1
    rw [rf_step c r h1, ih h2]

/-- Output of `removeFences` never contains a fence marker. -/
theorem hasTriple_removeFences (l : List Char) : hasTriple (removeFences l) = false := by
  induction l using removeFences.induct with
  | case1 => rfl
  | case2 rest ih => exact ih
  | case3 c rest h ih =>
    have hstep : ¬(c = '`' ∧ rest.take 2 = ['`', '`']) := by
      rintro ⟨hc, ht⟩
      rcases rest with _ | ⟨d, r2⟩
      · exact absurd ht (by decide)
      rcases r2 with _ | ⟨e, r3⟩
      · exact absurd ht (by simp [take_two_cons])
      rw [take_two_cons, take_one_cons] at ht
      injection ht with e1 ht2
      injection ht2 with e2 _
      subst e1
      subst e2
      exact h r3 hc rfl
    rw [rf_step c rest hstep, hasTriple_cons, Bool.or_eq_false_iff]
    refine ⟨?_, ih⟩
    simp only [decide_eq_false_iff_not]
    rintro ⟨hc, ht⟩
    subst hc
    rcases rest with _ | ⟨d, r2⟩
    · exact absurd ht (by decide)
    by_cases hd : d = '`'
    · subst hd
      rcases r2 with _ | ⟨e, r3⟩
      · exact absurd ht (by decide)
      by_cases he : e = '`'
      · subst he
        exact hstep ⟨rfl, rfl⟩
      · rw [rf_step '`' (e :: r3) (by
            rintro ⟨_, h2⟩
            rw [take_two_cons] at h2
            injection h2 with e1 _
            exact he e1),
          rf_step e r3 (by simp [he])] at ht
        rw [take_two_cons, take_one_cons] at ht
        injection ht with _ ht2
        injection ht2 with e2 _
        exact he e2
    · rw [rf_step d r2 (by simp [hd])] at ht
      rw [take_two_cons] at ht
      injection ht with e1 _
      exact hd e1

/-! ### Lemmas about whitespace stripping -/

theorem dropWhile_head_false {p : Char → Bool} {l : List Char} {c : Char} {r : List Char}
    (h : l.dropWhile p = c :: r) : p c = false := by
  induction l with
  | nil => simp at h
  | cons a t ih =>
    by_cases ha : p a = true
    · rw [List.dropWhile_cons_of_pos ha] at h
      exact ih h
    · rw [List.dropWhile_cons_of_neg ha] at h
      injection h with e1 _
      cases e1
      simpa using ha

theorem dropWhile_idem (p : Char → Bool) (l : List Char) :
    (l.dropWhile p).dropWhile p = l.dropWhile p := by
  cases h : l.dropWhile p with
  | nil => rfl
  | cons c r => exact List.dropWhile_cons_of_neg (by simp [dropWhile_head_false h])

theorem dropWsEnd_cons (c : Char) (rest : List Char) :
    dropWsEnd (c :: rest)
      = if dropWsEnd rest = [] ∧ isWs c = true then [] else c :: dropWsEnd rest := rfl

theorem dwe_append (l : List Char) : ∃ t, dropWsEnd l ++ t = l := by
  induction l with
  | nil => exact ⟨[], rfl⟩
  | cons c r ih =>
    rw [dropWsEnd_cons]
    split
    · exact ⟨c :: r, rfl⟩
    · obtain ⟨t, ht⟩ := ih
      exact ⟨t, by rw [List.cons_append, ht]⟩

theorem dwe_idem (l : List Char) : dropWsEnd (dropWsEnd l) = dropWsEnd l := by
  induction l with
  | nil => rfl
  | cons c r ih =>
    rw [dropWsEnd_cons]
    split
    · rfl
    · rename_i hcond
      rw [dropWsEnd_cons, ih, if_neg hcond]

theorem dwe_head {l : List Char} {c : Char} {r : List Char} (h : dropWsEnd l = c :: r) :
    ∃ r2, l = c :: r2 := by
  obtain ⟨t, ht⟩ := dwe_append l
  rw [h] at ht
  exact ⟨r ++ t, by rw [← ht]; simp⟩

theorem pyStrip_dropWhile (l : List Char) : (pyStrip l).dropWhile isWs = pyStrip l := by
  unfold pyStrip
  cases h : dropWsEnd (l.dropWhile isWs) with
  | nil => rfl
  | cons c r =>
    obtain ⟨r2, hr2⟩ := dwe_head h
    exact List.dropWhile_cons_of_neg (by simp [dropWhile_head_false hr2])

theorem pyStrip_idem (l : List Char) : pyStrip (pyStrip l) = pyStrip l := by
  show dropWsEnd ((pyStrip l).dropWhile isWs) = pyStrip l
  rw [pyStrip_dropWhile]
  exact dwe_idem _

/-- The model of `json.loads` is invariant under outer stripping. -/
theorem json_loads_pyStrip (l : List Char) : json_loads (pyStrip l) = json_loads l := by
  unfold json_loads
  rw [pyStrip_idem]

theorem hasTriple_dropWsEnd {l : List Char} (h : hasTriple l = false) :
    hasTriple (dropWsEnd l) = false := by
  obtain ⟨t, ht⟩ := dwe_append l
  exact hasTriple_append_left (by rw [ht]; exact h)

theorem hasTriple_pyStrip {l : List Char} (h : hasTriple l = false) :
    hasTriple (pyStrip l) = false :=
  hasTriple_dropWsEnd (hasTriple_dropWhile h)

theorem hasTriple_subJsonTok {l : List Char} (h : hasTriple l = false) :
    hasTriple (subJsonTok l) = false := by
  unfold subJsonTok
  by_cases hm : matchesJsonTok (l.dropWhile isWs) = true
  · simp only [hm, if_true]
    exact hasTriple_dropWhile (hasTriple_drop (hasTriple_dropWhile h))
  · simp only [Bool.not_eq_true] at hm
    simp only [hm, Bool.false_eq_true, if_false]
    exact h

/-- Normalized output never contains a fence marker. -/
theorem hasTriple_clean (l : List Char) : hasTriple (clean_json_output l) = false :=
  hasTriple_pyStrip (hasTriple_subJsonTok (hasTriple_removeFences l))

theorem subJsonTok_id {l : List Char} (h : matchesJsonTok (l.dropWhile isWs) = false) :
    subJsonTok l = l := by
  simp [subJsonTok, h]

theorem clean_dropWhile (l : List Char) :
    (clean_json_output l).dropWhile isWs = clean_json_output l :=
  pyStrip_dropWhile _

theorem pyStrip_clean (l : List Char) :
    pyStrip (clean_json_output l) = clean_json_output l :=
  pyStrip_idem _

/-- C3 counterexample: normalizing twice can differ from normalizing once,
because stripping one leading `json` token can expose a second one. -/
theorem c3_counterexample :
    clean_json_output (clean_json_output "jsonjson".toList)
      ≠ clean_json_output "jsonjson".toList := by decide

/-- C3 (amended): the Response Normalizer is idempotent on every string whose
normalized form does not itself begin with a case-insensitive `json` token;
in general a leftover leading `json` token is stripped again by the second
pass, so unconditional idempotence fails. -/
theorem c3_normalize_idempotent (s : List Char)
    (h : matchesJsonTok (clean_json_output s) = false) :
    clean_json_output (clean_json_output s) = clean_json_output s := by
  have h1 : removeFences (clean_json_output s) = clean_json_output s :=
    removeFences_id (hasTriple_clean s)
  have h2 : subJsonTok (clean_json_output s) = clean_json_output s :=
    subJsonTok_id (by rw [clean_dropWhile]; exact h)
  show pyStrip (subJsonTok (removeFences (clean_json_output s))) = clean_json_output s
  rw [h1, h2]
  exact pyStrip_clean s

/-- Witness for the amended C3 at a concrete input. -/
theorem c3_witness :
    matchesJsonTok (clean_json_output "  ```json \x7b\"a\": 1\x7d``` ".toList) = false
    ∧ clean_json_output (clean_json_output "  ```json \x7b\"a\": 1\x7d``` ".toList)
        = clean_json_output "  ```json \x7b\"a\": 1\x7d``` ".toList :=
  ⟨by decide, c3_normalize_idempotent _ (by decide)⟩

/-- C7: on text with no fence marker and no leading `json` token, the
normalizer only trims surrounding whitespace. -/
theorem c7_normalize_trims (s : List Char) (h1 : hasTriple s = false)
    (h2 : matchesJsonTok (s.dropWhile isWs) = false) :
    clean_json_output s = pyStrip s := by
  show pyStrip (subJsonTok (removeFences s)) = pyStrip s
  rw [removeFences_id h1, subJsonTok_id h2]

/-- Witness for C7 at a concrete input. -/
theorem c7_witness :
    hasTriple "  some `` text \x7bnot json\x7d  ".toList = false
    ∧ matchesJsonTok (("  some `` text \x7bnot json\x7d  ".toList).dropWhile isWs) = false
    ∧ clean_json_output "  some `` text \x7bnot json\x7d  ".toList
        = pyStrip "  some `` text \x7bnot json\x7d  ".toList :=
  ⟨by decide, by decide, c7_normalize_trims _ (by decide) (by decide)⟩

/-! ### Claims C1 and C10: the refinement loop -/

/-- Specification view of one refinement pass: the service response to the
rendered refine prompt, normalized and decoded. -/
def refineOnce (svc : List Char → List Char) (intent plan : Json) : Option Json :=
  json_loads (clean_json_output (svc (refinePrompt (dumpsI 0 plan) (dumpsC intent))))

/-- Specification view of the loop, following the spec text for C1: an
n-fold decode chain whose result is only the n-th decoded plan, with every
intermediate plan discarded. -/
def refineChain (svc : List Char → List Char) (intent : Json) : Json → Nat → Option Json
  | plan, 0 => some plan
  | plan, n + 1 => (refineOnce svc intent plan).bind (fun p2 => refineChain svc intent p2 n)

theorem irAux_succ (svc : List Char → List Char) (intent plan : Json) (idx n : Nat) :
    irAux svc intent plan idx (n + 1)
      = match refineOnce svc intent plan with
        | some p2 =>
          ((irAux svc intent p2 (idx + 1) n).1, irTag :: (irAux svc intent p2 (idx + 1) n).2)
        | none => (Except.error (PipeError.decodeError (irStage idx)
            (clean_json_output (svc (refinePrompt (dumpsI 0 plan) (dumpsC intent))))),
            [irTag]) := rfl

theorem irAux_ok (svc : List Char → List Char) (intent : Json) :
    ∀ (n : Nat) (plan : Json) (idx : Nat) (q : Json) (cs : List (List Char)),
      irAux svc intent plan idx n = (Except.ok q, cs) →
      cs = List.replicate n irTag ∧ refineChain svc intent plan n = some q := by
  intro n
  induction n with
  | zero =>
    intro plan idx q cs h
    have h' : (Except.ok plan, ([] : List (List Char))) = (Except.ok q, cs) := h
    injection h' with h1 h2
    injection h1 with e
    exact ⟨h2.symm, by rw [← e]; rfl⟩
  | succ n ih =>
    intro plan idx q cs h
    cases hr : refineOnce svc intent plan with
    | none =>
      have h' : (Except.error (PipeError.decodeError (irStage idx)
          (clean_json_output (svc (refinePrompt (dumpsI 0 plan) (dumpsC intent))))),
          [irTag]) = ((Except.ok q : Except PipeError Json), cs) := by
        rw [← h, irAux_succ, hr]
      injection h' with h1 _
      exact Except.noConfusion h1
    | some p2 =>
      have h' : ((irAux svc intent p2 (idx + 1) n).1,
          irTag :: (irAux svc intent p2 (idx + 1) n).2)
          = ((Except.ok q : Except PipeError Json), cs) := by
        rw [← h, irAux_succ, hr]
      rcases hx : irAux svc intent p2 (idx + 1) n with ⟨f, s⟩
      rw [hx] at h'
      injection h' with h1 h2
      have hf : f = Except.ok q := h1
      have hs : irTag :: s = cs := h2
      obtain ⟨hcs, hchain⟩ := ih p2 (idx + 1) q s (by rw [hx, hf])
      refine ⟨?_, ?_⟩
      · rw [← hs, hcs, List.replicate_succ]
      · show (refineOnce svc intent plan).bind _ = some q
        rw [hr]
        exact hchain

theorem irAux_chain (svc : List Char → List Char) (intent : Json) :
    ∀ (n : Nat) (plan : Json) (idx : Nat) (q : Json),
      refineChain svc intent plan n = some q →
      irAux svc intent plan idx n = (Except.ok q, List.replicate n irTag) := by
  intro n
  induction n with
  | zero =>
    intro plan idx q h
    injection h with e
    rw [← e]
    rfl
  | succ n ih =>
    intro plan idx q h
    cases hr : refineOnce svc intent plan with
    | none =>
      exfalso
      have h2 : (refineOnce svc intent plan).bind
          (fun p2 => refineChain svc intent p2 n) = some q := h
      rw [hr] at h2
      simp at h2
    | some p2 =>
      have h2 : (refineOnce svc intent plan).bind
          (fun p2 => refineChain svc intent p2 n) = some q := h
      rw [hr] at h2
      have h3 : refineChain svc intent p2 n = some q := h2
      rw [irAux_succ, hr]
      show ((irAux svc intent p2 (idx + 1) n).1,
        irTag :: (irAux svc intent p2 (idx + 1) n).2) = _
      rw [ih p2 (idx + 1) q h3, List.replicate_succ]

/-- C1: with a nonnegative iteration count n, `iterative_refinement` issues
exactly n Completion Service calls (one per iteration, tagged `irTag`),
returns the input plan untouched with no call when n = 0, and on success its
result is exactly the n-fold decode chain `refineChain` (each decoded plan
replaces the previous one; only the n-th decoded result is returned). -/
theorem c1_iterative_refinement (svc : List Char → List Char) (plan intent : Json)
    (n : Int) (hn : 0 ≤ n) :
    (n = 0 → iterative_refinement svc plan intent n = (Except.ok plan, []))
    ∧ (∀ (q : Json) (cs : List (List Char)),
        iterative_refinement svc plan intent n = (Except.ok q, cs) →
        cs = List.replicate n.toNat irTag ∧ refineChain svc intent plan n.toNat = some q)
    ∧ (∀ q : Json, refineChain svc intent plan n.toNat = some q →
        iterative_refinement svc plan intent n
          = (Except.ok q, List.replicate n.toNat irTag)) := by
  refine ⟨?_, ?_, ?_⟩
  · intro h0
    subst h0
    rfl
  · intro q cs h
    exact irAux_ok svc intent n.toNat plan 1 q cs h
  · intro q h
    exact irAux_chain svc intent n.toNat plan 1 q h

/-- Witness for C1: a stub answering `[]` twice, and the zero-iteration case. -/
theorem c1_witness :
    (0 : Int) ≤ 2
    ∧ iterative_refinement (fun _ => "[]".toList) (Json.obj []) Json.null 2
        = (Except.ok (Json.arr []), [irTag, irTag])
    ∧ iterative_refinement (fun _ => "[]".toList) (Json.obj []) Json.null 0
        = (Except.ok (Json.obj []), []) := by
  refine ⟨by decide, ?_, ?_⟩
  · exact (c1_iterative_refinement (fun _ => "[]".toList) (Json.obj []) Json.null 2
      (by decide)).2.2 (Json.arr []) (by rfl)
  · exact (c1_iterative_refinement (fun _ => "[]".toList) (Json.obj []) Json.null 0
      (by decide)).1 rfl

/-- C10: a negative iteration count behaves exactly like zero — the input
plan is returned unchanged and no Completion Service call is issued
(`range` of a nonpositive count is empty). -/
theorem c10_negative_iterations (svc : List Char → List Char) (plan intent : Json)
    (n : Int) (hn : n < 0) :
    iterative_refinement svc plan intent n = (Except.ok plan, []) := by
  unfold iterative_refinement
  rw [Int.toNat_of_nonpos (le_of_lt hn)]
  rfl

/-- Witness for C10 at iteration count -2. -/
theorem c10_witness :
    (-2 : Int) < 0
    ∧ iterative_refinement (fun _ => "x".toList) Json.null (Json.bool true) (-2)
        = (Except.ok Json.null, []) :=
  ⟨by decide, c10_negative_iterations _ _ _ _ (by decide)⟩

/-! ### Claims C2, C9, C6: decoding behaviour of the stages -/

theorem decode_error_inv {stage text : List Char} {e : PipeError}
    (h : decode stage text = Except.error e) :
    e = PipeError.decodeError stage text := by
  unfold decode at h
  cases hj : json_loads text with
  | some v =>
    rw [hj] at h
    exact Except.noConfusion h
  | none =>
    rw [hj] at h
    injection h with h2
    exact h2.symm

/-- C2: whenever the normalized service response of a decoding stage
(`generate_intent`, `generate_call_plan`, any iteration of
`iterative_refinement`, `summarize_call_log`) is not valid JSON, the stage
returns a decode error carrying the stage name and the offending normalized
text, and no other value. -/
theorem c2_decode_failure (svc : List Char → List Char) (u log : List Char)
    (intent plan : Json) (idx n : Nat) :
    (json_loads (clean_json_output (svc (intentPrompt u))) = none →
      generate_intent svc u
        = (Except.error (PipeError.decodeError giTag
            (clean_json_output (svc (intentPrompt u)))), [giTag]))
    ∧ (json_loads (clean_json_output (svc (planPrompt (dumpsC intent)))) = none →
      generate_call_plan svc intent
        = (Except.error (PipeError.decodeError gcpTag
            (clean_json_output (svc (planPrompt (dumpsC intent))))), [gcpTag]))
    ∧ (json_loads (clean_json_output
          (svc (refinePrompt (dumpsI 0 plan) (dumpsC intent)))) = none →
      irAux svc intent plan idx (n + 1)
        = (Except.error (PipeError.decodeError (irStage idx)
            (clean_json_output (svc (refinePrompt (dumpsI 0 plan) (dumpsC intent))))),
           [irTag]))
    ∧ (json_loads (clean_json_output (svc (summaryPrompt log))) = none →
      summarize_call_log svc log
        = (Except.error (PipeError.decodeError sumTag
            (clean_json_output (svc (summaryPrompt log)))), [sumTag])) := by
  refine ⟨?_, ?_, ?_, ?_⟩
  · intro h
    unfold generate_intent decode
    rw [h]
  · intro h
    unfold generate_call_plan decode
    rw [h]
  · intro h
    rw [irAux_succ, show refineOnce svc intent plan = none from h]
  · intro h
    unfold summarize_call_log decode
    rw [h]

/-- Witness for C2: a stub answering text that is not JSON at each stage. -/
theorem c2_witness :
    generate_intent (fun _ => "oops!".toList) "u".toList
      = (Except.error (PipeError.decodeError giTag "oops!".toList), [giTag])
    ∧ generate_call_plan (fun _ => "oops!".toList) Json.null
      = (Except.error (PipeError.decodeError gcpTag "oops!".toList), [gcpTag])
    ∧ irAux (fun _ => "oops!".toList) Json.null Json.null 1 1
      = (Except.error (PipeError.decodeError (irStage 1) "oops!".toList), [irTag])
    ∧ summarize_call_log (fun _ => "oops!".toList) "lg".toList
      = (Except.error (PipeError.decodeError sumTag "oops!".toList), [sumTag]) := by
  have h := c2_decode_failure (fun _ => "oops!".toList) "u".toList "lg".toList
    Json.null Json.null 1 0
  exact ⟨h.1 (by rfl), h.2.1 (by rfl), h.2.2.1 (by rfl), h.2.2.2 (by rfl)⟩

/-- C9: whenever the normalized response is valid JSON, each decoding stage
returns exactly the parsed value — whatever its shape — with no further
validation and no error. -/
theorem c9_no_shape_validation (svc : List Char → List Char) (u log : List Char)
    (intent plan : Json) (idx : Nat) (v : Json) :
    (json_loads (clean_json_output (svc (intentPrompt u))) = some v →
      generate_intent svc u = (Except.ok v, [giTag]))
    ∧ (json_loads (clean_json_output (svc (planPrompt (dumpsC intent)))) = some v →
      generate_call_plan svc intent = (Except.ok v, [gcpTag]))
    ∧ (json_loads (clean_json_output
          (svc (refinePrompt (dumpsI 0 plan) (dumpsC intent)))) = some v →
      irAux svc intent plan idx 1 = (Except.ok v, [irTag]))
    ∧ (json_loads (clean_json_output (svc (summaryPrompt log))) = some v →
      summarize_call_log svc log = (Except.ok v, [sumTag])) := by
  refine ⟨?_, ?_, ?_, ?_⟩
  · intro h
    unfold generate_intent decode
    rw [h]
  · intro h
    unfold generate_call_plan decode
    rw [h]
  · intro h
    rw [irAux_succ, show refineOnce svc intent plan = some v from h]
    rfl
  · intro h
    unfold summarize_call_log decode
    rw [h]

/-- Witness for C9: a stub answering the JSON text `"hi"`, decoded to a bare
string — not a mapping with the expected keys — and still accepted. -/
theorem c9_witness :
    generate_intent (fun _ => "\"hi\"".toList) "u".toList
      = (Except.ok (Json.str "hi".toList), [giTag])
    ∧ generate_call_plan (fun _ => "\"hi\"".toList) Json.null
      = (Except.ok (Json.str "hi".toList), [gcpTag])
    ∧ irAux (fun _ => "\"hi\"".toList) Json.null Json.null 1 1
      = (Except.ok (Json.str "hi".toList), [irTag])
    ∧ summarize_call_log (fun _ => "\"hi\"".toList) "lg".toList
      = (Except.ok (Json.str "hi".toList), [sumTag]) := by
  have h := c9_no_shape_validation (fun _ => "\"hi\"".toList) "u".toList "lg".toList
    Json.null Json.null 1 (Json.str "hi".toList)
  exact ⟨h.1 (by rfl), h.2.1 (by rfl), h.2.2.1 (by rfl), h.2.2.2 (by rfl)⟩

/-- C6: the System-Prompt Synthesis stage returns the normalized response as
a plain string with no decoding step, so a normalized response that is not
valid JSON is still returned unchanged and no decode error can occur. -/
theorem c6_cot_returns_normalized_string (svc : List Char → List Char)
    (plan intent : Json) :
    create_cot_system_prompt_from_plan svc plan intent
      = (clean_json_output (svc (cotPrompt (dumpsI 0 plan) (dumpsC intent))), [cotTag])
    ∧ (json_loads (clean_json_output
        (svc (cotPrompt (dumpsI 0 plan) (dumpsC intent)))) = none →
      (create_cot_system_prompt_from_plan svc plan intent).1
        = clean_json_output (svc (cotPrompt (dumpsI 0 plan) (dumpsC intent)))) :=
  ⟨rfl, fun _ => rfl⟩

/-- Witness for C6: a stub answering plain non-JSON text, passed through. -/
theorem c6_witness :
    json_loads (clean_json_output ((fun _ : List Char => "plain text".toList)
        (cotPrompt (dumpsI 0 Json.null) (dumpsC Json.null)))) = none
    ∧ (create_cot_system_prompt_from_plan (fun _ => "plain text".toList)
        Json.null Json.null).1 = "plain text".toList :=
  ⟨by rfl, (c6_cot_returns_normalized_string (fun _ => "plain text".toList)
      Json.null Json.null).2 (by rfl)⟩

/-! ### Claim C5: a decode failure aborts the planning pipeline -/

theorem irAux_error (svc : List Char → List Char) (intent : Json) :
    ∀ (n : Nat) (plan : Json) (idx : Nat) (e : PipeError) (cs : List (List Char)),
      irAux svc intent plan idx n = (Except.error e, cs) →
      ∃ k txt, 1 ≤ k ∧ k ≤ n ∧ e = PipeError.decodeError (irStage (idx + k - 1)) txt
        ∧ cs = List.replicate k irTag := by
  intro n
  induction n with
  | zero =>
    intro plan idx e cs h
    have h' : (Except.ok plan, ([] : List (List Char))) = (Except.error e, cs) := h
    injection h' with h1 _
    exact Except.noConfusion h1
  | succ n ih =>
    intro plan idx e cs h
    cases hr : refineOnce svc intent plan with
    | none =>
      have h' : (Except.error (PipeError.decodeError (irStage idx)
          (clean_json_output (svc (refinePrompt (dumpsI 0 plan) (dumpsC intent))))),
          [irTag]) = ((Except.error e : Except PipeError Json), cs) := by
        rw [← h, irAux_succ, hr]
      injection h' with h1 h2
      injection h1 with h3
      refine ⟨1, clean_json_output (svc (refinePrompt (dumpsI 0 plan) (dumpsC intent))),
        le_refl 1, by omega, ?_, h2.symm⟩
      rw [← h3, Nat.add_sub_cancel]
    | some p2 =>
      have h' : ((irAux svc intent p2 (idx + 1) n).1,
          irTag :: (irAux svc intent p2 (idx + 1) n).2)
          = ((Except.error e : Except PipeError Json), cs) := by
        rw [← h, irAux_succ, hr]
      rcases hx : irAux svc intent p2 (idx + 1) n with ⟨f, s⟩
      rw [hx] at h'
      injection h' with h1 h2
      have hf : f = Except.error e := h1
      have hs : irTag :: s = cs := h2
      obtain ⟨k, txt, hk1, hk2, he, hcs⟩ := ih p2 (idx + 1) e s (by rw [hx, hf])
      refine ⟨k + 1, txt, by omega, by omega, ?_, ?_⟩
      · rw [he, show idx + 1 + k - 1 = idx + (k + 1) - 1 from by omega]
      · rw [← hs, hcs, List.replicate_succ]

/-- C5: when the planning pipeline ends in an error, the error is the decode
error of the stage that failed, the calls issued are exactly those of the
completed stages plus the failing one (so no later-stage call is ever
issued and no stage is retried), and no partial result is returned. -/
theorem c5_pipeline_aborts (svc : List Char → List Char) (u : List Char) (n : Int)
    (e : PipeError) (calls : List (List Char))
    (h : run_call_planning svc u n = (Except.error e, calls)) :
    ∃ st txt, e = PipeError.decodeError st txt
      ∧ ((st = giTag ∧ calls = [giTag])
         ∨ (st = gcpTag ∧ calls = [giTag, gcpTag])
         ∨ (∃ k, 1 ≤ k ∧ k ≤ n.toNat ∧ st = irStage k
              ∧ calls = giTag :: gcpTag :: List.replicate k irTag)) := by
  cases hd : decode giTag (clean_json_output (svc (intentPrompt u))) with
  | error e1 =>
    have hgi : generate_intent svc u = (Except.error e1, [giTag]) := by
      unfold generate_intent
      rw [hd]
    have heq : run_call_planning svc u n = (Except.error e1, [giTag]) := by
      unfold run_call_planning
      rw [hgi]
    rw [heq] at h
    injection h with he hc
    injection he with he2
    obtain ⟨st0, txt0, hetxt⟩ : ∃ st0 txt0, e1 = PipeError.decodeError st0 txt0 :=
      ⟨giTag, _, decode_error_inv hd⟩
    exact ⟨giTag, clean_json_output (svc (intentPrompt u)),
      by rw [← he2]; exact decode_error_inv hd, Or.inl ⟨rfl, hc.symm⟩⟩
  | ok intent =>
    have hgi : generate_intent svc u = (Except.ok intent, [giTag]) := by
      unfold generate_intent
      rw [hd]
    have heq : run_call_planning svc u n
        = (match generate_call_plan svc intent with
           | (Except.error e2, c2) => (Except.error e2, [giTag] ++ c2)
           | (Except.ok plan0, c2) =>
             match iterative_refinement svc plan0 intent n with
             | (Except.error e3, c3) => (Except.error e3, [giTag] ++ c2 ++ c3)
             | (Except.ok plan, c3) =>
               match create_cot_system_prompt_from_plan svc plan intent with
               | (s, c4) => (Except.ok s, [giTag] ++ c2 ++ c3 ++ c4)) := by
      unfold run_call_planning
      rw [hgi]
    cases hd2 : decode gcpTag (clean_json_output (svc (planPrompt (dumpsC intent)))) with
    | error e2 =>
      have hgcp : generate_call_plan svc intent = (Except.error e2, [gcpTag]) := by
        unfold generate_call_plan
        rw [hd2]
      rw [hgcp] at heq
      have h' : ((Except.error e2 : Except PipeError (List Char)),
          [giTag] ++ [gcpTag]) = (Except.error e, calls) := by
        rw [← h, heq]
      injection h' with he hc
      injection he with he2
      exact ⟨gcpTag, clean_json_output (svc (planPrompt (dumpsC intent))),
        by rw [← he2]; exact decode_error_inv hd2, Or.inr (Or.inl ⟨rfl, hc.symm⟩)⟩
    | ok plan0 =>
      have hgcp : generate_call_plan svc intent = (Except.ok plan0, [gcpTag]) := by
        unfold generate_call_plan
        rw [hd2]
      rw [hgcp] at heq
      have heq2 : run_call_planning svc u n
          = (match iterative_refinement svc plan0 intent n with
             | (Except.error e3, c3) => (Except.error e3, [giTag] ++ [gcpTag] ++ c3)
             | (Except.ok plan, c3) =>
               match create_cot_system_prompt_from_plan svc plan intent with
               | (s, c4) => (Except.ok s, [giTag] ++ [gcpTag] ++ c3 ++ c4)) := heq
      rcases hir : iterative_refinement svc plan0 intent n with ⟨rir, cir⟩
      cases rir with
      | error e3 =>
        rw [hir] at heq2
        have h' : ((Except.error e3 : Except PipeError (List Char)),
            [giTag] ++ [gcpTag] ++ cir) = (Except.error e, calls) := heq2.symm.trans h
        injection h' with he hc
        injection he with he2
        obtain ⟨k, txt, hk1, hk2, he3, hcs⟩ :=
          irAux_error svc intent n.toNat plan0 1 e3 cir hir
        refine ⟨irStage k, txt, ?_, Or.inr (Or.inr ⟨k, hk1, hk2, rfl, ?_⟩)⟩
        · rw [← he2, he3]
          congr 2
          omega
        · rw [← hc, hcs]
          rfl
      | ok plan =>
        rw [hir] at heq2
        have h' : ((Except.ok (clean_json_output
            (svc (cotPrompt (dumpsI 0 plan) (dumpsC intent)))) :
              Except PipeError (List Char)),
            [giTag] ++ [gcpTag] ++ cir ++ [cotTag]) = (Except.error e, calls) :=
          heq2.symm.trans h
        injection h' with he _
        exact Except.noConfusion he

/-- Service stub used by the C5 witness: a valid JSON answer for the intent
prompt, non-JSON for everything else, so the pipeline fails at
`generate_call_plan`. -/
def svcFailPlan : List Char → List Char :=
  fun p => if p.take 2 = "\nB".toList then "[]".toList else "oops".toList

/-- Witness for C5: the run aborts at `generate_call_plan` having issued
exactly the intent call and the failing plan call. -/
theorem c5_witness :
    ∃ st txt, PipeError.decodeError gcpTag "oops".toList = PipeError.decodeError st txt
      ∧ ((st = giTag ∧ [giTag, gcpTag] = [giTag])
         ∨ (st = gcpTag ∧ [giTag, gcpTag] = [giTag, gcpTag])
         ∨ (∃ k, 1 ≤ k ∧ k ≤ (3 : Int).toNat ∧ st = irStage k
              ∧ [giTag, gcpTag] = giTag :: gcpTag :: List.replicate k irTag)) :=
  c5_pipeline_aborts svcFailPlan "hi".toList 3
    (PipeError.decodeError gcpTag "oops".toList) [giTag, gcpTag] (by rfl)

/-! ### Claim C8: the summary scenario -/

def carPhrase : List Char := "car is broken".toList

/-- The stub response text fixed by the C8 scenario. -/
def c8Json : List Char :=
  ("\x7b\"recipient\":\"Tony\",\"purpose\":\"confirm meeting\",\"result\":\"failure\","
    ++ "\"failureReason\":\"car broken\",\"nextSteps\":\"reschedule\","
    ++ "\"additionalDetails\":\"\"\x7d").toList

/-- The decoded value of `c8Json`. -/
def c8Val : Json :=
  Json.obj [("recipient".toList, Json.str "Tony".toList),
    ("purpose".toList, Json.str "confirm meeting".toList),
    ("result".toList, Json.str "failure".toList),
    ("failureReason".toList, Json.str "car broken".toList),
    ("nextSteps".toList, Json.str "reschedule".toList),
    ("additionalDetails".toList, Json.str [])]

set_option maxRecDepth 10000 in
/-- C8: with any Completion Service stub answering the fixed JSON text for
transcripts containing the phrase, the summary stage returns its decoded
CallSummary, whose result field is `failure` and whose failure-reason field
is `car broken`. -/
theorem c8_summary_scenario (svc : List Char → List Char)
    (hsvc : ∀ lg : List Char, carPhrase <:+: lg → svc (summaryPrompt lg) = c8Json)
    (log : List Char) (hlog : carPhrase <:+: log) :
    summarize_call_log svc log = (Except.ok c8Val, [sumTag])
    ∧ jget c8Val "result".toList = some (Json.str "failure".toList)
    ∧ jget c8Val "failureReason".toList = some (Json.str "car broken".toList) := by
  refine ⟨?_, by rfl, by rfl⟩
  show (decode sumTag (clean_json_output (svc (summaryPrompt log))), [sumTag]) = _
  rw [hsvc log hlog]
  rfl

/-- Witness for C8: a constant stub and a concrete transcript containing the
phrase. -/
theorem c8_witness :
    summarize_call_log (fun _ => c8Json) "my car is broken today".toList
      = (Except.ok c8Val, [sumTag])
    ∧ jget c8Val "result".toList = some (Json.str "failure".toList)
    ∧ jget c8Val "failureReason".toList = some (Json.str "car broken".toList) :=
  c8_summary_scenario (fun _ => c8Json) (fun _ _ => rfl)
    "my car is broken today".toList ⟨"my ".toList, " today".toList, by rfl⟩

/-! ### Claim C4: unwrapping a code-fenced JSON object -/

/-- Markdown wrapping with a ```` ```json ```` opening fence. -/
def wrapJson (j : List Char) : List Char :=
  "```json\n".toList ++ j ++ "\n```".toList

/-- Markdown wrapping with a plain ```` ``` ```` opening fence. -/
def wrapPlain (j : List Char) : List Char :=
  "```\n".toList ++ j ++ "\n```".toList

theorem dropWhile_append_of_ne {p : Char → Bool} {x : List Char} (b : List Char)
    (h : x.dropWhile p ≠ []) : (x ++ b).dropWhile p = x.dropWhile p ++ b := by
  induction x with
  | nil => exact absurd rfl h
  | cons c x ih =>
    by_cases hc : p c = true
    · rw [List.cons_append, List.dropWhile_cons_of_pos hc, List.dropWhile_cons_of_pos hc]
      exact ih (by rw [List.dropWhile_cons_of_pos hc] at h; exact h)
    · rw [List.cons_append, List.dropWhile_cons_of_neg hc, List.dropWhile_cons_of_neg hc,
        List.cons_append]

theorem dwe_append_ws {w : Char} (hw : isWs w = true) (x : List Char) :
    dropWsEnd (x ++ [w]) = dropWsEnd x := by
  induction x with
  | nil =>
    show dropWsEnd [w] = dropWsEnd []
    rw [show dropWsEnd [w] = if dropWsEnd [] = [] ∧ isWs w = true then []
      else w :: dropWsEnd [] from rfl]
    rw [if_pos ⟨rfl, hw⟩]
    rfl
  | cons c x ih =>
    rw [List.cons_append, dropWsEnd_cons, ih, dropWsEnd_cons]

theorem jsonWs_imp_isWs {c : Char} (h : jsonWs c = true) : isWs c = true := by
  simp only [jsonWs, Bool.or_eq_true, beq_iff_eq] at h
  rcases h with ((h | h) | h) | h <;> subst h <;> rfl

theorem matchesJsonTok_cons_false {c : Char} (h1 : c ≠ 'j') (h2 : c ≠ 'J')
    (x : List Char) : matchesJsonTok (c :: x) = false := by
  have e1 : (c == 'j') = false := by simp [h1]
  have e2 : (c == 'J') = false := by simp [h2]
  cases x with
  | nil => rfl
  | cons c2 x2 =>
    cases x2 with
    | nil => rfl
    | cons c3 x3 =>
      cases x3 with
      | nil => rfl
      | cons c4 x4 => simp [matchesJsonTok, e1, e2]

theorem json_loads_strip_nil {l : List Char} (h : pyStrip l = []) :
    json_loads l = none := by
  unfold json_loads
  rw [h]
  rfl

theorem json_loads_parseVal {l : List Char} {v : Json} (h : json_loads l = some v) :
    ∃ p : Json × List Char,
      parseVal (2 * (pyStrip l).length + 2) (pyStrip l) = some p := by
  unfold json_loads at h
  cases hp : parseVal (2 * (pyStrip l).length + 2) (pyStrip l) with
  | none =>
    rw [hp] at h
    exact Option.noConfusion h
  | some p => exact ⟨p, rfl⟩

theorem parseNumber_head {l : List Char} {p : List Char × List Char}
    (h : parseNumber l = some p) :
    ∃ c r, l = c :: r ∧ (c = '-' ∨ c.isDigit = true) := by
  cases l with
  | nil => exact Option.noConfusion h
  | cons c r =>
    by_cases hc : c = '-'
    · exact ⟨c, r, rfl, Or.inl hc⟩
    by_cases hd : c.isDigit = true
    · exact ⟨c, r, rfl, Or.inr hd⟩
    exfalso
    have hip : parseIntPart (c :: r) = none := by
      show (if c = '0' then some (['0'], r)
        else if c.isDigit = true then
          some (c :: r.takeWhile Char.isDigit, r.dropWhile Char.isDigit)
        else none) = none
      rw [if_neg (fun h0 => hd (by rw [h0]; rfl)), if_neg hd]
    have hnone : parseNumber (c :: r) = none := by
      unfold parseNumber
      split
      · rename_i heq
        injection heq with e1 _
        exact absurd e1 hc
      · split
        · rename_i sign l1 heq
          split at heq
          · rename_i r2 heq2
            exfalso
            injection heq2 with e1 _
            exact hc e1
          · injection heq with hsign hl1
            rw [← hl1, hip]
    rw [hnone] at h
    exact Option.noConfusion h

theorem parseVal_head_ne {F : Nat} {t : List Char} {p : Json × List Char}
    (h : parseVal F t = some p) :
    ∃ c r, skipWs t = c :: r ∧ c ≠ '`' ∧ c ≠ 'j' ∧ c ≠ 'J' := by
  cases F with
  | zero => exact Option.noConfusion h
  | succ F =>
    unfold parseVal at h
    split at h
    next heq => exact Option.noConfusion h
    next c r heq =>
      refine ⟨c, r, heq, ?_, ?_, ?_⟩
      all_goals
        intro hceq
        subst hceq
        rw [if_neg (by decide), if_neg (by decide), if_neg (by decide),
          if_neg (by decide), if_neg (by decide), if_neg (by decide),
          if_neg (by decide), if_neg (by decide)] at h
        cases hq : parseNumber _ with
        | none =>
          rw [hq] at h
          exact Option.noConfusion h
        | some q =>
          obtain ⟨c2, r2, hl2, hcr⟩ := parseNumber_head hq
          injection hl2 with e1 _
          rcases hcr with h0 | h0
          · rw [← e1] at h0
            exact absurd h0 (by decide)
          · rw [← e1] at h0
            exact absurd h0 (by decide)

/-- Removing fences distributes over an append whose right part does not
start with a backtick, provided the left part is fence-free. -/
theorem rf_append_safe : ∀ (a b : List Char), hasTriple a = false →
    (∀ cc rr, b = cc :: rr → cc ≠ '`') →
    removeFences (a ++ b) = a ++ removeFences b := by
  intro a
  induction a with
  | nil => intro b _ _; rfl
  | cons c a ih =>
    intro b h hb
    rw [hasTriple_cons, Bool.or_eq_false_iff] at h
    rcases h with ⟨h1, h2⟩
    simp only [decide_eq_false_iff_not] at h1
    rw [List.cons_append, rf_step c (a ++ b) ?hcond, ih b h2 hb, List.cons_append]
    case hcond =>
      rintro ⟨hc, ht⟩
      subst hc
      rcases a with _ | ⟨d, a2⟩
      · rcases b with _ | ⟨b0, b1⟩
        · exact absurd ht (by decide)
        · rw [List.nil_append, take_two_cons] at ht
          injection ht with e1 _
          exact hb b0 b1 rfl e1
      rcases a2 with _ | ⟨d2, a3⟩
      · rcases b with _ | ⟨b0, b1⟩
        · rw [List.append_nil] at ht
          exact h1 ⟨rfl, ht⟩
        · rw [List.cons_append, List.nil_append, take_two_cons, take_one_cons] at ht
          injection ht with e1 ht2
          injection ht2 with e2 _
          exact hb b0 b1 rfl e2
      · rw [List.cons_append, List.cons_append, take_two_cons, take_one_cons] at ht
        apply h1
        refine ⟨rfl, ?_⟩
        rw [take_two_cons, take_one_cons]
        exact ht

theorem subJsonTok_json_wrapper (X : List Char) :
    subJsonTok ('j' :: 's' :: 'o' :: 'n' :: '\n' :: X) = X.dropWhile isWs := by
  have h1 : ('j' :: 's' :: 'o' :: 'n' :: '\n' :: X).dropWhile isWs
      = 'j' :: 's' :: 'o' :: 'n' :: '\n' :: X := List.dropWhile_cons_of_neg (by decide)
  have h2 : matchesJsonTok ('j' :: 's' :: 'o' :: 'n' :: '\n' :: X) = true := rfl
  unfold subJsonTok
  simp only [h1, h2, if_true]
  show ('\n' :: X).dropWhile isWs = X.dropWhile isWs
  exact List.dropWhile_cons_of_pos (by decide)

/-- Input showing that C4 fails without a fence-freedom hypothesis: a JSON
object whose string value contains a triple backtick. -/
def c4Input : List Char := "\x7b\"a\":\"x```y\"\x7d".toList

/-- C4 counterexample: for a JSON object text containing a triple backtick
inside a string literal, fencing and normalizing decodes to a different
value than decoding directly, because every backtick triple is removed. -/
theorem c4_counterexample :
    json_loads (clean_json_output (wrapJson c4Input)) ≠ json_loads c4Input := by
  intro h
  have e1 : json_loads (clean_json_output (wrapJson c4Input))
      = some (Json.obj [("a".toList, Json.str "xy".toList)]) := by rfl
  have e2 : json_loads c4Input
      = some (Json.obj [("a".toList, Json.str "x```y".toList)]) := by rfl
  rw [e1, e2] at h
  injection h with h1
  injection h1 with h2
  injection h2 with h3 _
  injection h3 with _ h4
  injection h4 with h5
  exact absurd h5 (by decide)

/-- C4 (amended): for every JSON text that decodes successfully and contains
no triple backtick of its own, wrapping it in a markdown code fence
(```` ```json ```` or plain ```` ``` ```` before, ```` ``` ```` after) and
then normalizing yields text that decodes to the same value as decoding the
original directly.  The fence-freedom hypothesis is forced by the
counterexample: fence removal also deletes backtick triples inside JSON
string literals. -/
theorem c4_fence_unwrap (j : List Char) (v : Json)
    (hj : json_loads j = some v) (hft : hasTriple j = false) :
    json_loads (clean_json_output (wrapJson j)) = some v
    ∧ json_loads (clean_json_output (wrapPlain j)) = some v := by
  have hstrip_ne : pyStrip j ≠ [] := by
    intro h0
    rw [json_loads_strip_nil h0] at hj
    exact Option.noConfusion hj
  have hdwj_ne : j.dropWhile isWs ≠ [] := by
    intro h0
    exact hstrip_ne (by unfold pyStrip; rw [h0]; rfl)
  obtain ⟨p, hp⟩ := json_loads_parseVal hj
  rcases hps : pyStrip j with _ | ⟨c, t⟩
  · exact absurd hps hstrip_ne
  obtain ⟨t2, ht2⟩ := dwe_head (show dropWsEnd (j.dropWhile isWs) = c :: t from hps)
  have hcws : isWs c = false := dropWhile_head_false ht2
  rw [hps] at hp
  obtain ⟨c3, r3, hs3, hbt, hjj, hJJ⟩ := parseVal_head_ne hp
  have hskip : skipWs (c :: t) = c :: t := List.dropWhile_cons_of_neg (by
    intro hjw
    rw [jsonWs_imp_isWs hjw] at hcws
    exact Bool.noConfusion hcws)
  rw [hskip] at hs3
  injection hs3 with hc3 _
  rw [← hc3] at hbt hjj hJJ
  have hj_head : ∀ cc rr, j = cc :: rr → cc ≠ '`' := by
    intro cc rr hj0 hcc
    subst hcc
    have hthis : j.dropWhile isWs = '`' :: rr := by
      rw [hj0]
      exact List.dropWhile_cons_of_neg (by decide)
    have e0 : ('`' :: rr : List Char) = c :: t2 := hthis.symm.trans ht2
    injection e0 with e1 _
    exact hbt e1.symm
  have hb1 : ∀ cc rr, (j ++ "\n```".toList) = cc :: rr → cc ≠ '`' := by
    cases j with
    | nil =>
      intro cc rr hccrr
      injection hccrr with e1 _
      rw [← e1]
      decide
    | cons c0 r0 =>
      intro cc rr hccrr
      rw [List.cons_append] at hccrr
      injection hccrr with e1 _
      rw [← e1]
      exact hj_head c0 r0 rfl
  have hb2 : ∀ cc rr, ("\n```".toList : List Char) = cc :: rr → cc ≠ '`' := by
    intro cc rr hccrr
    injection hccrr with e1 _
    rw [← e1]
    decide
  have hrf_inner : removeFences (j ++ "\n```".toList) = j ++ ['\n'] := by
    rw [rf_append_safe j _ hft hb2]
    rfl
  have hdw_append : (j ++ ['\n']).dropWhile isWs = j.dropWhile isWs ++ ['\n'] :=
    dropWhile_append_of_ne ['\n'] hdwj_ne
  have hdw2 : (j.dropWhile isWs ++ ['\n']).dropWhile isWs
      = j.dropWhile isWs ++ ['\n'] := by
    rw [ht2, List.cons_append]
    exact List.dropWhile_cons_of_neg (by simp [hcws])
  have hpy : dropWsEnd (j.dropWhile isWs ++ ['\n']) = pyStrip j := by
    rw [dwe_append_ws (by decide) (j.dropWhile isWs)]
    rfl
  constructor
  · have e1 : removeFences (wrapJson j)
        = 'j' :: 's' :: 'o' :: 'n' :: '\n' :: (j ++ ['\n']) := by
      have estep : removeFences (wrapJson j)
          = removeFences ("json\n".toList ++ (j ++ "\n```".toList)) := rfl
      rw [estep, rf_append_safe _ _ (by decide) hb1, hrf_inner]
      rfl
    have e2 : clean_json_output (wrapJson j) = pyStrip j := by
      show pyStrip (subJsonTok (removeFences (wrapJson j))) = pyStrip j
      rw [e1, subJsonTok_json_wrapper (j ++ ['\n'])]
      show dropWsEnd (((j ++ ['\n']).dropWhile isWs).dropWhile isWs) = pyStrip j
      rw [hdw_append, hdw2, hpy]
    rw [e2, json_loads_pyStrip]
    exact hj
  · have e1 : removeFences (wrapPlain j) = '\n' :: (j ++ ['\n']) := by
      have estep : removeFences (wrapPlain j)
          = removeFences ('\n' :: (j ++ "\n```".toList)) := rfl
      rw [estep, rf_step '\n' _ (by rintro ⟨hx, _⟩; exact absurd hx (by decide)),
        hrf_inner]
    have hdwall : ('\n' :: (j ++ ['\n'])).dropWhile isWs
        = j.dropWhile isWs ++ ['\n'] := by
      rw [List.dropWhile_cons_of_pos (by decide), hdw_append]
    have e2 : clean_json_output (wrapPlain j) = pyStrip j := by
      show pyStrip (subJsonTok (removeFences (wrapPlain j))) = pyStrip j
      rw [e1, subJsonTok_id (by
        rw [hdwall, ht2, List.cons_append]
        exact matchesJsonTok_cons_false hjj hJJ _)]
      show dropWsEnd (('\n' :: (j ++ ['\n'])).dropWhile isWs) = pyStrip j
      rw [hdwall, hpy]
    rw [e2, json_loads_pyStrip]
    exact hj

/-- Witness for the amended C4 at a concrete fence-free JSON object text. -/
theorem c4_witness :
    json_loads "\x7b\"a\": \"b\"\x7d".toList
      = some (Json.obj [("a".toList, Json.str "b".toList)])
    ∧ hasTriple "\x7b\"a\": \"b\"\x7d".toList = false
    ∧ json_loads (clean_json_output (wrapJson "\x7b\"a\": \"b\"\x7d".toList))
        = some (Json.obj [("a".toList, Json.str "b".toList)])
    ∧ json_loads (clean_json_output (wrapPlain "\x7b\"a\": \"b\"\x7d".toList))
        = some (Json.obj [("a".toList, Json.str "b".toList)]) :=
  ⟨by rfl, by decide,
    (c4_fence_unwrap _ _ (by rfl) (by decide)).1,
    (c4_fence_unwrap _ _ (by rfl) (by decide)).2⟩

end CallPlanner
